import Mathlib

set_option maxRecDepth 100000

/-!
Shallow embedding of the `auto-sdk-java` migration scripts
(`scripts/convert.py`, `convert.py`, `scripts/appium-conversion.py`).

Python strings are modelled as `List Char`.  The scripts use three string
mechanisms, each embedded separately and faithfully:

* `str.replace` / substring tests (`in`): literal, left-to-right,
  non-overlapping (`replaceAll`, `hasSub`);
* `re.sub` with patterns whose only metacharacter is an unescaped `.`
  (which matches any character except a newline) and, in the configuration
  manager patterns, a trailing empty group `()` which matches the empty
  string: these compile to fixed-length token lists (`PatTok`, `subFixed`);
* the handful of genuinely regular patterns (`@Locate\(\s*attr = `,
  `SdkHelper.create\(.+.class\);?`, `@Locate\(.*\)`), embedded as dedicated
  scanners mirroring leftmost search and greedy `\s*`/`.+`/`.*`.

Whitespace predicates (`\s`, `str.rstrip`) are modelled on the six ASCII
whitespace characters; all inputs considered here are ASCII.
-/

namespace AutoSdk

abbrev Str := List Char

/-- Character list of a string literal. -/
def cs (x : String) : Str := x.data

/-- Python whitespace (ASCII fragment): the class matched by `\s` and
stripped by `str.rstrip`. -/
def pyWs (c : Char) : Bool :=
  c == ' ' || c == '\t' || c == '\n' || c == '\r' || c == '\x0b' || c == '\x0c'

/-- Python `needle in hay` (substring test). -/
def hasSub (hay needle : Str) : Bool :=
  match hay with
  | [] => needle.isEmpty
  | _ :: t => needle.isPrefixOf hay || hasSub t needle

/-- Python `str.split(sep)` for a one-character separator (`'\n'`, `'_'`):
splitting the empty string yields `[[]]`. -/
def splitCh (sep : Char) : Str → List Str
  | [] => [[]]
  | c :: t =>
    if c == sep then [] :: splitCh sep t
    else
      match splitCh sep t with
      | [] => [[c]]
      | l :: ls => (c :: l) :: ls

/-- Python `'\n'.join` (inverse of `splitCh '\n'` on newline-free pieces). -/
def joinNl : List Str → Str
  | [] => []
  | [l] => l
  | l :: ls => l ++ '\n' :: joinNl ls

/-- Python `str.rstrip()` (ASCII whitespace fragment). -/
def rstrip (l : Str) : Str := (l.reverse.dropWhile pyWs).reverse

/-- Number of positions at which `p` occurs in `s`
(`countSub p s = |{i | p is a prefix of s.drop i}|`). -/
def countSub (p : Str) : Str → Nat
  | [] => 0
  | c :: t => (if p.isPrefixOf (c :: t) then 1 else 0) + countSub p t

/-- Worker for `replaceAll`: while `skip` is positive the scanner is
inside an already-replaced occurrence and just drops characters. -/
def replaceAllGo (f r : Str) : Nat → Str → Str
  | _, [] => []
  | k + 1, _ :: t => replaceAllGo f r k t
  | 0, c :: t =>
    if f.isPrefixOf (c :: t) then r ++ replaceAllGo f r (f.length - 1) t
    else c :: replaceAllGo f r 0 t

/-- Python `str.replace(f, r)` with non-empty `f`: leftmost,
non-overlapping, replaces every occurrence. -/
def replaceAll (f r : Str) (s : Str) : Str := replaceAllGo f r 0 s

/-- One compiled token of a fixed-length regex: a literal character, or
`.` (any character except `'\n'`). -/
inductive PatTok where
  | lit (c : Char)
  | dot
deriving DecidableEq

/-- Does the fixed-length pattern match a prefix of `s`? -/
def patMatches : List PatTok → Str → Bool
  | [], _ => true
  | _ :: _, [] => false
  | .lit c :: p, d :: t => c == d && patMatches p t
  | .dot :: p, d :: t => d != '\n' && patMatches p t

/-- Compile a pattern in which every `.` is the regex wildcard and all
other characters are literals. -/
def dotPat (x : String) : List PatTok :=
  x.data.map fun c => if c == '.' then .dot else .lit c

/-- Worker for `subFixed`, with the same skip-counter shape as
`replaceAllGo`. -/
def subFixedGo (p : List PatTok) (r : Str) : Nat → Str → Str
  | _, [] => []
  | k + 1, _ :: t => subFixedGo p r k t
  | 0, c :: t =>
    if patMatches p (c :: t) then r ++ subFixedGo p r (p.length - 1) t
    else c :: subFixedGo p r 0 t

/-- `re.sub` for a non-empty fixed-length pattern: leftmost,
non-overlapping, replaces every occurrence. -/
def subFixed (p : List PatTok) (r : Str) (s : Str) : Str := subFixedGo p r 0 s

/-!
## `scripts/convert.py` — the Java rewriter

`convert.py` at the repository root is an earlier copy of the same script:
its `replace_imports` table has one entry (the first pair below) and its
`convert_pom` has fewer substitutions; every function named by the claims
(`fix_locators`, `add_import_if_not_present`, `check_for_applause_config_usage`,
`check_for_config_usage`, `remove_sdk_helper_create`, `check_for_sub_components`,
`main`'s classification) is textually identical in both copies, so one
embedding settles the claims for both.
-/

/-- The `imports` table of `replace_imports` (old pattern, replacement).
The patterns are used with `re.sub`, so every `.` is a wildcard. -/
def importPairs : List (List PatTok × Str) :=
  [ (dotPat "com.applause.auto.pageobjectmodel.elements.BaseElement", cs "com.applause.auto.pageobjectmodel.base.BaseElement"),
    (dotPat "com.applause.allure.appenders", cs "com.applause.auto.helpers.allure.appenders"),
    (dotPat "com.applause.allure", cs "com.applause.auto.helpers.allure"),
    (dotPat "com.applause.email", cs "com.applause.auto.helpers.email"),
    (dotPat "com.applause.google", cs "com.applause.auto.helpers.google"),
    (dotPat "com.applause.http.mapping", cs "com.applause.auto.helpers.http.mapping"),
    (dotPat "com.applause.http.restassured.client", cs "com.applause.auto.helpers.http.restassured.client"),
    (dotPat "com.applause.http.restassured", cs "com.applause.auto.helpers.http.restassured"),
    (dotPat "com.applause.jira.annotations.scanner", cs "com.applause.auto.helpers.jira.annotations.scanner"),
    (dotPat "com.applause.jira.annotations", cs "com.applause.auto.helpers.jira.annotations"),
    (dotPat "com.applause.jira.clients.modules.jira", cs "com.applause.auto.helpers.jira.clients.modules.jira"),
    (dotPat "com.applause.jira.clients.modules.xray", cs "com.applause.auto.helpers.jira.clients.modules.xray"),
    (dotPat "com.applause.jira.clients", cs "com.applause.auto.helpers.jira.clients"),
    (dotPat "com.applause.jira.constants", cs "com.applause.auto.helpers.jira.constants"),
    (dotPat "com.applause.jira.dto.jql", cs "com.applause.auto.helpers.jira.dto.jql"),
    (dotPat "com.applause.jira.dto.requestmappers", cs "com.applause.auto.helpers.jira.dto.requestmappers"),
    (dotPat "com.applause.jira.dto.responsemappers.iteration", cs "com.applause.auto.helpers.jira.dto.responsemappers.iteration"),
    (dotPat "com.applause.jira.dto.responsemappers.steps", cs "com.applause.auto.helpers.jira.dto.responsemappers.steps"),
    (dotPat "com.applause.jira.dto.responsemappers", cs "com.applause.auto.helpers.jira.dto.responsemappers"),
    (dotPat "com.applause.jira.dto.shared", cs "com.applause.auto.helpers.jira.dto.shared"),
    (dotPat "com.applause.jira.exceptions", cs "com.applause.auto.helpers.jira.exceptions"),
    (dotPat "com.applause.jira.helper", cs "com.applause.auto.helpers.jira.helper"),
    (dotPat "com.applause.jira.listeners", cs "com.applause.auto.testng.listeners"),
    (dotPat "com.applause.jira.restclient", cs "com.applause.auto.helpers.jira.restclient"),
    (dotPat "com.applause.mobile.deeplinks", cs "com.applause.auto.helpers.mobile.deeplinks"),
    (dotPat "com.applause.mobile.file_uploading.SauceLabs", cs "com.applause.auto.helpers.mobile.fileuploading.saucelabs"),
    (dotPat "com.applause.mobile", cs "com.applause.auto.helpers.mobile"),
    (dotPat "com.applause.testdata.yaml", cs "com.applause.auto.helpers.testdata.yaml"),
    (dotPat "com.applause.testdata", cs "com.applause.auto.helpers.testdata"),
    (dotPat "com.applause.util", cs "com.applause.auto.helpers.util"),
    (dotPat "com.applause.web", cs "com.applause.auto.helpers.web") ]

/-- Apply a list of `re.sub` substitutions in declared order. -/
def applySubs : List (List PatTok × Str) → Str → Str
  | [], c => c
  | (p, r) :: rest, c => applySubs rest (subFixed p r c)

/-- Is a line an import line (`line[:6] == "import"`)? -/
def isImportLine (l : Str) : Bool := l.take 6 == cs "import"

/-- The deduplication loop of `replace_imports`: drop a line exactly equal
to an import line seen before (raw comparison, no stripping); record
raw import lines in `seen`; keep every other line. -/
def dedupLines (seen : List Str) : List Str → List Str
  | [] => []
  | l :: ls =>
    if seen.contains l then dedupLines seen ls
    else if isImportLine l then l :: dedupLines (l :: seen) ls
    else l :: dedupLines seen ls

/-- `replace_imports(contents)`. -/
def replace_imports (c : Str) : Str :=
  joinNl (dedupLines [] (splitCh '\n' (applySubs importPairs c)))

/-- Python `list.insert(n, x)`: insert before index `n`, appending when
`n` is past the end. -/
def insertClamp (n : Nat) (x : Str) : List Str → List Str
  | [] => [x]
  | l :: ls =>
    match n with
    | 0 => x :: l :: ls
    | m + 1 => l :: insertClamp m x ls

/-- The scanning loop of `add_import_if_not_present`: returns the kept
(right-stripped) lines, the final `last_import` index and the final
`contains_import` flag.  Mirrors the source exactly: the duplicate check
compares the *raw* line against a set of *stripped* lines, `last_import`
is the index in the original enumeration, and every kept line is
right-stripped. -/
def aiScan (imp : Str) (seen : List Str) (i lastImp : Nat) (contains : Bool) :
    List Str → List Str × Nat × Bool
  | [] => ([], lastImp, contains)
  | l :: ls =>
    if seen.contains l then aiScan imp seen (i + 1) lastImp contains ls
    else if isImportLine l then
      let r := rstrip l
      let res := aiScan imp (r :: seen) (i + 1) i (contains || imp.isSuffixOf r) ls
      (r :: res.1, res.2)
    else
      let res := aiScan imp seen (i + 1) lastImp contains ls
      (rstrip l :: res.1, res.2)

/-- `add_import_if_not_present(import_statement, contents)`. -/
def add_import_if_not_present (imp : Str) (c : Str) : Str :=
  let res := aiScan imp [] 0 1 false (splitCh '\n' c)
  joinNl (if res.2.2 then res.1 else insertClamp res.2.1 imp res.1)

/-- The `locators` table of `fix_locators`: legacy attribute name and
strategy enum name. -/
def locatorAttrs : List (String × String) :=
  [ ("id", "ID"), ("css", "CSS"), ("xpath", "XPATH"), ("className", "CLASSNAME"),
    ("name", "NAME"), ("tagName", "TAGNAME"), ("linkText", "LINKTEXT"),
    ("accessibilityId", "ACCESSIBILITYID"), ("androidUIAutomator", "ANDROID_UIAUTOMATOR"),
    ("iOSClassChain", "IOS_CLASSCHAIN"), ("iOSNsPredicate", "IOS_NSPREDICATE"),
    ("appiumClassName", "APPIUM_CLASSNAME"), ("jQuery", "JQUERY"),
    ("javascript", "JAVASCRIPT") ]

/-- The raw source text of the locator pattern for `attr` — what the first
loop of `fix_locators` tests with `old_style_locator in contents`
(a plain substring test of the regex source, backslashes included). -/
def locPatSrc (attr : String) : Str := cs "@Locate\\(\\s*" ++ cs attr ++ cs " = "

/-- Match length of the regex `@Locate\(\s*attr = ` at the head of `t`
(literal `@Locate(`, then a greedy run of whitespace, then `attr = `;
deterministic because `attr` starts with a non-space character). -/
def locMatchLen (attr : Str) (t : Str) : Option Nat :=
  if (cs "@Locate(").isPrefixOf t then
    let rest := t.drop 8
    let k := (rest.takeWhile pyWs).length
    if (attr ++ cs " = ").isPrefixOf (rest.drop k) then
      some (8 + k + attr.length + 3)
    else none
  else none

/-- Worker for `subLoc`, skip-counter shape. -/
def subLocGo (attr strat : Str) : Nat → Str → Str
  | _, [] => []
  | k + 1, _ :: t => subLocGo attr strat k t
  | 0, c :: t =>
    match locMatchLen attr (c :: t) with
    | some n =>
        cs "@Locate(using = Strategy." ++ strat ++ cs ", value = " ++
          subLocGo attr strat (n - 1) t
    | none => c :: subLocGo attr strat 0 t

/-- `re.sub("@Locate\(\s*attr = ", "@Locate(using = Strategy.STRAT, value = ", ·)`. -/
def subLoc (attr strat : Str) (s : Str) : Str := subLocGo attr strat 0 s

/-- The Strategy import statement inserted by `fix_locators`. -/
def strategyImport : Str := cs "import com.applause.auto.pageobjectmodel.base.Strategy;"

/-- `fix_locators(contents)`: the first loop adds the Strategy import when
the raw regex *source text* occurs as a substring of the file (the code
tests `old_style_locator in contents`, not a regex search); the second
loop applies all fourteen substitutions in order. -/
def fix_locators (c : Str) : Str :=
  let c1 :=
    if locatorAttrs.any (fun a => hasSub c (locPatSrc a.1)) then
      add_import_if_not_present strategyImport c
    else c
  locatorAttrs.foldl (fun acc a => subLoc (cs a.1) (cs a.2) acc) c1

/-- `re.sub("ApplauseEnvironmentConfigurationManager.get()", …)`: the dot
is a wildcard and the trailing `()` is an empty group, so the compiled
pattern is `ApplauseEnvironmentConfigurationManager` + any-char + `get`. -/
def check_for_applause_config_usage (c : Str) : Str :=
  subFixed (dotPat "ApplauseEnvironmentConfigurationManager.get")
    (cs "ApplauseEnvironmentConfigurationManager.INSTANCE.get()") c

/-- `re.sub("EnvironmentConfigurationManager.get()", …)`, same reading. -/
def check_for_config_usage (c : Str) : Str :=
  subFixed (dotPat "EnvironmentConfigurationManager.get")
    (cs "EnvironmentConfigurationManager.INSTANCE.get()") c

/-!
### `remove_sdk_helper_create`

The search patterns are `SdkHelper.create\(.+.class\);` (first search) and
`SdkHelper.create\(.+.class\)` (loop searches).  Both dots are wildcards;
`.` never matches `'\n'`; `.+` is greedy, so at the leftmost viable start
the match runs to the *last* `class)` (resp. `class);`) on that line.
-/

/-- Does the fixed 17-character head `SdkHelper` + any + `create(`
match at the front of `t`? -/
def sdkHeadMatch (t : Str) : Bool :=
  (cs "SdkHelper").isPrefixOf t &&
    (match t.drop 9 with
     | [] => false
     | d :: r => d != '\n' && (cs "create(").isPrefixOf r)

/-- All viable offsets `k` (relative to the text after the 17-character
head) at which `class)` may begin: `k ≥ 2` (one char for `.+`, one for the
wildcard before `class`), everything before `k` on the same line, and a
`;` directly after `class)` when `semi` is set.  Offsets are produced in
increasing order; the scan stops at the first newline. -/
def sdkEndsAux (semi : Bool) (k : Nat) : Str → List Nat
  | [] => []
  | c :: t =>
    if c == '\n' then []
    else
      (if 2 ≤ k && (cs "class)").isPrefixOf (c :: t) &&
          (!semi || (match (c :: t).drop 6 with | ';' :: _ => true | _ => false))
       then [k] else []) ++ sdkEndsAux semi (k + 1) t

/-- The greedy match end: the largest viable offset. -/
def sdkGreedyEnd (semi : Bool) (rest : Str) : Option Nat :=
  (sdkEndsAux semi 0 rest).getLast?

/-- `re.search` for the `SdkHelper.create` pattern: leftmost start, greedy
end.  Returns `(text before the match, matched span, text after)`. -/
def sdkSearch (semi : Bool) : Str → Option (Str × Str × Str)
  | [] => none
  | c :: t =>
    if sdkHeadMatch (c :: t) then
      match sdkGreedyEnd semi ((c :: t).drop 17) with
      | some k =>
          let n := 17 + k + 6 + (if semi then 1 else 0)
          some ([], (c :: t).take n, (c :: t).drop n)
      | none => (sdkSearch semi t).map fun r => (c :: r.1, r.2.1, r.2.2)
    else (sdkSearch semi t).map fun r => (c :: r.1, r.2.1, r.2.2)

/-- `result.group().split('(')[1]`: the text between the first `(` of the
match and the following `(` (or the end). -/
def betweenParens (g : Str) : Str :=
  ((g.dropWhile (fun c => c != '(')).drop 1).takeWhile (fun c => c != '(')

/-- `·.split('.class')[0]`: the text before the first literal `.class`. -/
def cutAtSub (pat : Str) : Str → Str
  | [] => []
  | c :: t => if pat.isPrefixOf (c :: t) then [] else c :: cutAtSub pat t

/-- The `className` extracted from a matched span. -/
def classNameOf (g : Str) : Str := cutAtSub (cs ".class") (betweenParens g)

/-- The builder-chain replacement text for a class name. -/
def builderFor (cn : Str) : Str :=
  cs "PageObjectBuilder.withContext(SdkHelper.getDriverContext()).forBaseComponent(" ++
    cn ++ cs ".class).initialize();"

/-- The import inserted after each builder rewrite. -/
def builderImport : Str := cs "import com.applause.auto.pageobjectmodel.builder.PageObjectBuilder;"

/-- One iteration body of the `remove_sdk_helper_create` loop: splice in
the builder chain, then run `add_import_if_not_present`. -/
def sdkStep (pre g post : Str) : Str :=
  add_import_if_not_present builderImport (pre ++ builderFor (classNameOf g) ++ post)

/-- Occurrences of `create(` — the termination measure of the loop. -/
def countCreate (c : Str) : Nat := countSub (cs "create(") c

/-- The `while result is not None` loop (searching without the `;`),
with explicit fuel standing for the unbounded Python loop. -/
def sdkLoop : Nat → Str → Option Str
  | 0, _ => none
  | n + 1, c =>
    match sdkSearch false c with
    | none => some c
    | some (p, g, q) => sdkLoop n (sdkStep p g q)

/-- `remove_sdk_helper_create(contents)` with explicit fuel: the first
search requires the trailing `;`, later searches do not. -/
def remove_sdk_fuel (n : Nat) (c : Str) : Option Str :=
  match sdkSearch true c with
  | none => some c
  | some (p, g, q) => sdkLoop n (sdkStep p g q)

/-- `remove_sdk_helper_create(contents)`.  `countCreate c` fuel always
suffices (the termination theorem below), so the fallback is dead code. -/
def remove_sdk_helper_create (c : Str) : Str :=
  (remove_sdk_fuel (countCreate c) c).getD c

/-!
### `check_for_sub_components` and `convert_java`
-/

/-- The last viable end of a `@Locate\(.*\)` match starting at the head of
`t` (which is assumed to start with `@Locate(`): the greedy `.*` runs to
the last `)` on the line at offset ≥ 8. -/
def locGroupEnds (k : Nat) : Str → List Nat
  | [] => []
  | c :: t =>
    if c == '\n' then []
    else (if c == ')' && 8 ≤ k then [k] else []) ++ locGroupEnds (k + 1) t

/-- Worker for `cfsScan`, skip-counter shape. -/
def cfsGo : Nat → Str → Bool
  | _, [] => false
  | k + 1, _ :: t => cfsGo k t
  | 0, c :: t =>
    if (cs "@Locate(").isPrefixOf (c :: t) then
      match (locGroupEnds 0 (c :: t)).getLast? with
      | some j =>
          if hasSub ((c :: t).take (j + 1)) (cs "using") then cfsGo j t
          else true
      | none => cfsGo 0 t
    else cfsGo 0 t

/-- The scan of `re.finditer("@Locate\(.*\)", contents)`: `true` when some
matched span does not contain `using`.  Matches are non-overlapping; after
a good match the scan resumes past it; a bad match returns immediately. -/
def cfsScan (s : Str) : Bool := cfsGo 0 s

/-- The warning text of `check_for_sub_components`. -/
def subComponentWarning : Str :=
  cs "@Locate annotation found without an underlying locator. If no locator is tied to the element, please add the @SubComponent annotation."

/-- `check_for_sub_components(contents)`: `some` warning on the first
`@Locate(...)` span lacking `using`, else `None`. -/
def check_for_sub_components (c : Str) : Option Str :=
  if cfsScan c then some subComponentWarning else none

/-- The pure text transformation performed by `convert_java` (the passes
applied between read and write, in source order). -/
def convert_java_text (c : Str) : Str :=
  remove_sdk_helper_create
    (check_for_config_usage
      (check_for_applause_config_usage
        (fix_locators
          (replace_imports c))))

/-- The warning list returned by `convert_java`. -/
def convert_java_warnings (c : Str) : List (Option Str) :=
  [check_for_sub_components (convert_java_text c)]

/-!
## `scripts/appium-conversion.py` — the capability JSON rewriter

`update_appium_capabilities` is modelled as the pure text transformation
it applies between read and write; the `print` diagnostics carry no data
the claims depend on and are not modelled.
-/

/-- The `unused_applause_options` table. -/
def unused_applause_options : List (String × List String) :=
  [("isStrict", ["true", "false"]), ("isMobileNative", ["false"])]

/-- Python `str.lower()` (ASCII fragment). -/
def lowerStr (s : Str) : Str := s.map Char.toLower

/-- The removal step for one (option, value) pair: note the `elif` — when
the `": "` spacing variant is present, the `" : "` variant is not even
looked at. -/
def removeOptionValue (option value : String) (c : Str) : Str :=
  let v1 := cs ("\"" ++ option ++ "\": \"" ++ value ++ "\",")
  let v2 := cs ("\"" ++ option ++ "\" : \"" ++ value ++ "\",")
  if hasSub c v1 then replaceAll v1 [] c
  else if hasSub c v2 then replaceAll v2 [] c
  else c

/-- The obsolete-option removal phase. -/
def removeUnusedOptions (c : Str) : Str :=
  unused_applause_options.foldl
    (fun acc ov => ov.2.foldl (fun a v => removeOptionValue ov.1 v a) acc) c

/-- `update_single_capability`: replace every occurrence of the quoted
key by the `appium:`-prefixed quoted key. -/
def update_single_capability (c : Str) (cap : String) : Str :=
  replaceAll (cs ("\"" ++ cap ++ "\"")) (cs ("\"appium:" ++ cap ++ "\"")) c

/-- The body of the inner `for scope in cap_scope` loop for one scope
string (reached only when `"all"` is not in the scope list). -/
def applyScope (cap : String) (c : Str) (scope : String) : Str :=
  let parts := splitCh '_' (cs scope)
  match parts with
  | [dt, ds] =>
    if !hasSub (lowerStr c) dt then c
    else if ds = cs "all" then update_single_capability c cap
    else if hasSub (lowerStr c) ds then update_single_capability c cap
    else c
  | _ => c

/-- Processing of one `(capability, cap_scope)` table entry. -/
def processCap (c : Str) (cap : String) (scopes : List String) : Str :=
  if !hasSub c (cs ("\"" ++ cap ++ "\"")) then c
  else if scopes.contains "all" then update_single_capability c cap
  else scopes.foldl (applyScope cap) c

/-- `update_appium_capabilities` over an explicit capability table. -/
def update_capabilities_with (table : List (String × List String)) (c : Str) : Str :=
  table.foldl (fun acc e => processCap acc e.1 e.2) (removeUnusedOptions c)

/-- The `capabilities_to_update` table (all 180 entries, declared order). -/
def capabilities_to_update : List (String × List String) :=
  [ ("adbExecTimeout", ["all"]), ("adbPort", ["all"]), ("absoluteWebLocations", ["all"]),
    ("additionalWebviewBundleIds", ["all"]), ("allowDelayAdb", ["all"]),
    ("allowProvisioningDeviceRegistration", ["all"]), ("allowTestPackages", ["all"]),
    ("androidInstallTimeout", ["all"]), ("app", ["all"]), ("appActivity", ["all"]),
    ("appInstallStrategy", ["all"]), ("appPackage", ["all"]), ("appPushTimeout", ["all"]),
    ("appWaitActivity", ["all"]), ("appWaitDuration", ["all"]), ("appWaitForLaunch", ["all"]),
    ("appWaitPackage", ["all"]), ("autoAcceptAlerts", ["all"]), ("autoDismissAlerts", ["all"]),
    ("autoFillPasswords", ["all"]), ("autoGrantPermissions", ["all"]), ("autoLaunch", ["all"]),
    ("autoWebview", ["all"]), ("autoWebviewName", ["all"]), ("autoWebviewTimeout", ["all"]),
    ("automationName", ["all"]), ("avd", ["all"]), ("avdArgs", ["all"]), ("avdEnv", ["all"]),
    ("avdLaunchTimeout", ["all"]), ("avdReadyTimeout", ["all"]), ("buildToolsVersion", ["all"]),
    ("bundleId", ["all"]), ("calendarAccessAuthorized", ["all"]), ("calendarFormat", ["all"]),
    ("chromeLoggingPrefs", ["all"]), ("chromeOptions", ["all"]), ("chromedriverArgs", ["all"]),
    ("chromedriverChromeMappingFile", ["all"]), ("chromedriverDisableBuildCheck", ["all"]),
    ("chromedriverExecutable", ["all"]), ("chromedriverExecutableDir", ["all"]),
    ("chromedriverPort", ["all"]), ("chromedriverPorts", ["all"]),
    ("chromedriverUseSystemExecutable", ["all"]), ("clearDeviceLogsOnStart", ["all"]),
    ("clearSystemFiles", ["all"]), ("commandTimeouts", ["all"]),
    ("connectHardwareKeyboard", ["all"]), ("customSSLCert", ["all"]),
    ("derivedDataPath", ["all"]),
    ("deviceName", ["mobileweb_saucelabs", "mobilenative_all", "native_all"]),
    ("disableAutomaticScreenshots", ["all"]), ("disableSuppressAccessibilityService", ["all"]),
    ("disableWindowAnimation", ["all"]), ("dontStopAppOnReset", ["all"]),
    ("enableAsyncExecuteFromHttps", ["all"]), ("enablePerformanceLogging", ["all"]),
    ("enableWebviewDetailsCollection", ["all"]), ("enforceAppInstall", ["all"]),
    ("enforceFreshSimulatorCreation", ["all"]), ("ensureWebviewsHavePages", ["all"]),
    ("extractChromeAndroidPackageFromContextName", ["all"]), ("forceAppLaunch", ["all"]),
    ("forceSimulatorSoftwareKeyboardPresence", ["all"]), ("fullContextList", ["all"]),
    ("fullReset", ["all"]), ("gpsEnabled", ["all"]), ("hideKeyboard", ["all"]),
    ("ignoreHiddenApiPolicyError", ["all"]), ("includeDeviceCapsToSessionInfo", ["all"]),
    ("includeSafariInWebviews", ["all"]), ("injectedImageProperties", ["all"]),
    ("intentAction", ["all"]), ("intentCategory", ["all"]), ("intentFlags", ["all"]),
    ("iosInstallPause", ["all"]), ("iosSimulatorLogsPredicate", ["all"]),
    ("isHeadless", ["all"]), ("keepKeyChains", ["all"]), ("keyAlias", ["all"]),
    ("keyPassword", ["all"]), ("keychainPassword", ["all"]), ("keychainPath", ["all"]),
    ("keychainsExcludePatterns", ["all"]), ("keystorePassword", ["all"]),
    ("keystorePath", ["all"]), ("language", ["all"]), ("launchWithIDB", ["all"]),
    ("locale", ["all"]), ("localeScript", ["all"]), ("localizableStringsDir", ["all"]),
    ("logcatFilterSpecs", ["all"]), ("logcatFormat", ["all"]), ("maxTypingFrequency", ["all"]),
    ("mjpegScreenshotUrl", ["all"]), ("mjpegServerPort", ["all"]), ("mockLocationApp", ["all"]),
    ("nativeWebScreenshot", ["all"]), ("nativeWebTap", ["all"]), ("nativeWebTapStrict", ["all"]),
    ("networkSpeed", ["all"]), ("newCommandTimeout", ["all"]), ("noReset", ["all"]),
    ("noSign", ["all"]), ("optionalIntentArguments", ["all"]), ("orientation", ["all"]),
    ("otherApps", ["all"]), ("permissions", ["all"]), ("platformVersion", ["all"]),
    ("prebuiltWDAPath", ["all"]), ("printPageSourceOnFindFailure", ["all"]),
    ("processArguments", ["all"]), ("recreateChromeDriverSessions", ["all"]),
    ("reduceMotion", ["all"]), ("reduceTransparency", ["all"]), ("remoteAdbHost", ["all"]),
    ("remoteAppsCacheLimit", ["all"]), ("resetLocationService", ["all"]),
    ("resetOnSessionStartOnly", ["all"]), ("resultBundlePath", ["all"]),
    ("resultBundleVersion", ["all"]), ("safariAllowPopups", ["all"]),
    ("safariGarbageCollect", ["all"]), ("safariGlobalPreferences", ["all"]),
    ("safariIgnoreFraudWarning", ["all"]), ("safariIgnoreWebHostnames", ["all"]),
    ("safariInitialUrl", ["all"]), ("safariLogAllCommunication", ["all"]),
    ("safariLogAllCommunicationHexDump", ["all"]), ("safariOpenLinksInBackground", ["all"]),
    ("safariSocketChunkSize", ["all"]), ("safariWebInspectorMaxFrameLength", ["all"]),
    ("scaleFactor", ["all"]), ("screenshotQuality", ["all"]), ("shouldTerminateApp", ["all"]),
    ("shouldUseSingletonTestManager", ["all"]), ("showChromedriverLog", ["all"]),
    ("showIOSLog", ["all"]), ("showXcodeLog", ["all"]), ("shutdownOtherSimulators", ["all"]),
    ("simpleIsVisibleCheck", ["all"]), ("simulatorDevicesSetPath", ["all"]),
    ("simulatorPasteboardAutomaticSync", ["all"]), ("simulatorStartupTimeout", ["all"]),
    ("simulatorTracePointer", ["all"]), ("simulatorWindowCenter", ["all"]),
    ("skipDeviceInitialization", ["all"]), ("skipLogCapture", ["all"]),
    ("skipLogcatCapture", ["all"]), ("skipServerInstallation", ["all"]),
    ("skipUnlock", ["all"]), ("suppressKillServer", ["all"]), ("systemPort", ["all"]),
    ("timeZone", ["all"]), ("udid", ["all"]), ("uiautomator2ServerInstallTimeout", ["all"]),
    ("uiautomator2ServerLaunchTimeout", ["all"]), ("uiautomator2ServerReadTimeout", ["all"]),
    ("uninstallOtherPackages", ["all"]), ("unlockKey", ["all"]), ("unlockStrategy", ["all"]),
    ("unlockSuccessTimeout", ["all"]), ("unlockType", ["all"]), ("updatedWDABundleId", ["all"]),
    ("useJSONSource", ["all"]), ("useKeystore", ["all"]), ("useNativeCachingStrategy", ["all"]),
    ("useNewWDA", ["all"]), ("usePrebuiltWDA", ["all"]), ("usePreinstalledWDA", ["all"]),
    ("useSimpleBuildTest", ["all"]), ("useXctestrunFile", ["all"]), ("userProfile", ["all"]),
    ("waitForIdleTimeout", ["all"]), ("waitForQuiescence", ["all"]), ("wdaBaseUrl", ["all"]),
    ("wdaConnectionTimeout", ["all"]), ("wdaEventloopIdleDelay", ["all"]),
    ("wdaLaunchTimeout", ["all"]), ("wdaLocalPort", ["all"]), ("wdaStartupRetries", ["all"]),
    ("wdaStartupRetryInterval", ["all"]), ("webDriverAgentUrl", ["all"]),
    ("webkitResponseTimeout", ["all"]), ("webviewConnectRetries", ["all"]),
    ("webviewConnectTimeout", ["all"]), ("webviewDevtoolsPort", ["all"]),
    ("xcodeConfigFile", ["all"]), ("xcodeOrgId", ["all"]), ("xcodeSigningId", ["all"]),
    ("commandTimeout", ["all"]), ("deviceOrientation", ["all"]), ("idleTimeout", ["all"]) ]

/-- The text transformation of `update_appium_capabilities`. -/
def update_appium_capabilities (c : Str) : Str :=
  update_capabilities_with capabilities_to_update c

/-!
## The `main` block of `scripts/convert.py`

The script's top level is modelled as a pure function over an explicit
file-system snapshot.  A `FileSys` lists the regular files (path ↦
contents) and, for each directory path, the `(root, files)` sequence that
`os.walk` would yield for it (subdirectory names play no role in the
script).  `open` of a missing path is Python's uncaught `FileNotFoundError`
and makes the whole run return `none`.  `os.path.join(root, name)` is
modelled as `root ++ "/" ++ name` (all roots here are plain relative
paths).  The contents of the transformation applied by `convert_pom` is
irrelevant to every claim about `main`, so it is a parameter `pomT`. -/
structure FileSys where
  files : List (String × Str)
  walks : List (String × List (String × List String))
deriving DecidableEq

/-- Association-list update: replace in place, else append (Python's
file-write semantics over our snapshot). -/
def updFiles : List (String × Str) → String → Str → List (String × Str)
  | [], k, v => [(k, v)]
  | (k', v') :: t, k, v =>
    if k' = k then (k, v) :: t else (k', v') :: updFiles t k v

/-- `open(p).read()`. -/
def readF (fs : FileSys) (p : String) : Option Str := fs.files.lookup p

/-- `open(p, 'w').write(c)`. -/
def writeF (fs : FileSys) (p : String) (c : Str) : FileSys :=
  { fs with files := updFiles fs.files p c }

/-- `os.path.isfile` / `os.path.isdir` over the snapshot. -/
def isFileP (fs : FileSys) (p : String) : Bool := (readF fs p).isSome

/-- The walk sequence of a directory path, when it is one. -/
def walkOf (fs : FileSys) (p : String) : Option (List (String × List String)) :=
  fs.walks.lookup p

/-- Python `s[-5:]`. -/
def lastN (n : Nat) (l : Str) : Str := (l.reverse.take n).reverse

/-- `convert_java(filepath)` at file-system level: read, transform, write
back, return the warning list; the progress line is returned alongside. -/
def convert_java (fs : FileSys) (p : String) :
    Option (FileSys × List (Option Str) × String) :=
  match readF fs p with
  | none => none
  | some content =>
    some (writeF fs p (convert_java_text content),
          convert_java_warnings content,
          "Converted " ++ p)

/-- `convert_pom(filepath)` at file-system level, with the pure text
transformation abstracted as `pomT`. -/
def convert_pom (pomT : Str → Str) (fs : FileSys) (p : String) :
    Option (FileSys × String) :=
  match readF fs p with
  | none => none
  | some content => some (writeF fs p (pomT content), "Converted " ++ p)

/-- State threaded through the argument loop: file system, stdout lines
so far, and the `warnings` dict (insertion-ordered, keyed by the bare
walk-local file name). -/
structure RunState where
  fs : FileSys
  out : List String
  warns : List (String × List (Option Str))
deriving DecidableEq

/-- Python dict assignment: overwrite in place, else append. -/
def updWarns : List (String × List (Option Str)) → String → List (Option Str) →
    List (String × List (Option Str))
  | [], k, v => [(k, v)]
  | (k', v') :: t, k, v =>
    if k' = k then (k, v) :: t else (k', v') :: updWarns t k v

/-- The body of the walk's inner loop for one directory entry `name`
under `root`: `.java` files are converted at the joined path and their
warnings recorded under the bare `name`; a file named `pom.xml` is
converted at the *bare* name (the script passes `path`, not
`os.path.join(root, path)`). -/
def walkFileStep (pomT : Str → Str) (st : RunState) (root name : String) :
    Option RunState := do
  let st1 ←
    if lastN 5 (cs name) = cs ".java" then do
      let r ← convert_java st.fs (root ++ "/" ++ name)
      pure { fs := r.1, out := st.out ++ [r.2.2], warns := updWarns st.warns name r.2.1 }
    else pure st
  if name = "pom.xml" then do
    let r ← convert_pom pomT st1.fs name
    pure { st1 with fs := r.1, out := st1.out ++ [r.2] }
  else pure st1

/-- Walk one `(root, files)` item. -/
def walkRootStep (pomT : Str → Str) (st : RunState) (root : String) :
    List String → Option RunState
  | [] => some st
  | name :: rest => do
    let st1 ← walkFileStep pomT st root name
    walkRootStep pomT st1 root rest

/-- Walk a whole directory. -/
def walkAll (pomT : Str → Str) (st : RunState) :
    List (String × List String) → Option RunState
  | [] => some st
  | (root, names) :: rest => do
    let st1 ← walkRootStep pomT st root names
    walkAll pomT st1 rest

/-- One iteration of `for filepath in sys.argv[1:]`.  A direct `.java`
file argument is converted but its returned warning list is *discarded*;
a direct file argument goes to `convert_pom` only when the whole argument
string equals `pom.xml`; anything else that is not a directory gets one
diagnostic line. -/
def procArg (pomT : Str → Str) (st : RunState) (arg : String) : Option RunState :=
  if isFileP st.fs arg && lastN 5 (cs arg) = cs ".java" then do
    let r ← convert_java st.fs arg
    pure { st with fs := r.1, out := st.out ++ [r.2.2] }
  else if isFileP st.fs arg && arg = "pom.xml" then do
    let r ← convert_pom pomT st.fs arg
    pure { st with fs := r.1, out := st.out ++ [r.2] }
  else
    match walkOf st.fs arg with
    | some entries => walkAll pomT st entries
    | none =>
      some { st with
             out := st.out ++ [arg ++ " is not a valid Java file, pom.xml, or directory."] }

/-- The argument loop. -/
def procArgs (pomT : Str → Str) (st : RunState) : List String → Option RunState
  | [] => some st
  | a :: rest => do
    let st1 ← procArg pomT st a
    procArgs pomT st1 rest

/-- The warning report printed after the argument loop: skip empty lists
and lists whose non-`None` filtration is empty; otherwise a
`<filename> warnings:` header followed by one indented line per warning. -/
def reportLines : List (String × List (Option Str)) → List String
  | [] => []
  | (p, wl) :: t =>
    (if wl.isEmpty then []
     else if (wl.filterMap id).isEmpty then []
     else (p ++ " warnings:") ::
       (wl.filterMap id).map (fun w => "  - " ++ String.mk w)) ++ reportLines t

/-- The usage text printed when no arguments were given (the script never
interpolates the `%s`). -/
def usageLines : List String :=
  [ "Usage: %s [<path-to-java-file> | <path-to-pom> | <path-to-directory>]+",
    "Converts files from v5.0.x API to v6.0.x API.  NOTE:  Overwrites files. This conversion is not a guaranteed fix for all issues and may generate bad code. Please review all changes before committing.",
    "   <path-to-java-file>    :  relative or absolute path to java file to convert",
    "   <path-to-pom>          :  relative or absolute path to pom.xml file to convert",
    "   <path-to-directory>    :  relative or absolute path to a directory with .java or pom.xml files to convert" ]

/-- The whole `main` block: `none` models an uncaught exception. -/
def mainRun (pomT : Str → Str) (fs₀ : FileSys) (args : List String) :
    Option (List String × FileSys) := do
  let st ← procArgs pomT ⟨fs₀, [], []⟩ args
  pure (st.out ++ reportLines st.warns ++ (if args.isEmpty then usageLines else []), st.fs)

/-!
## Occurrence counting

Support for the termination proof of `remove_sdk_helper_create`: the
number of occurrences of `create(` strictly decreases at every loop
iteration.
-/

/-- Occurrences of `p` starting inside `a`, in the text `a ++ b`. -/
def countAux (p b : Str) : Str → Nat
  | [] => 0
  | c :: t => (if p.isPrefixOf (c :: t ++ b) then 1 else 0) + countAux p b t

theorem pfx_append_left {p x : Str} (b : Str) (h : p.isPrefixOf x = true) :
    p.isPrefixOf (x ++ b) = true := by
  rw [List.isPrefixOf_iff_prefix] at *
  exact h.trans (List.prefix_append x b)

theorem countSub_append (p b : Str) :
    ∀ a, countSub p (a ++ b) = countAux p b a + countSub p b := by
  intro a
  induction a with
  | nil => simp [countAux]
  | cons c t ih =>
    show countSub p (c :: (t ++ b)) = _
    simp only [countSub, countAux, List.cons_append, ih]
    omega

theorem countSub_le_countAux (p b : Str) : ∀ a, countSub p a ≤ countAux p b a := by
  intro a
  induction a with
  | nil => simp [countSub, countAux]
  | cons c t ih =>
    simp only [countSub, countAux, List.cons_append]
    by_cases h : p.isPrefixOf (c :: t) = true
    · have h2 := pfx_append_left (x := c :: t) b h
      rw [List.cons_append] at h2
      simp only [h, h2, if_true]
      omega
    · rw [if_neg h]
      split <;> omega

theorem countSub_append_ge (p a b : Str) :
    countSub p a + countSub p b ≤ countSub p (a ++ b) := by
  rw [countSub_append]
  have := countSub_le_countAux p b a
  omega

/-- Decomposing an occurrence at the head of `x ++ b`. -/
theorem pfx_append_cases {p x b : Str} (h : p <+: x ++ b) :
    p <+: x ∨ (x.length < p.length ∧ x <+: p ∧ p.drop x.length <+: b) := by
  by_cases hl : p.length ≤ x.length
  · exact Or.inl (List.prefix_of_prefix_length_le h (List.prefix_append x b) hl)
  · right
    refine ⟨by omega, ?_, ?_⟩
    · exact List.prefix_of_prefix_length_le (List.prefix_append x b) h (by omega)
    · have hx : x <+: p := List.prefix_of_prefix_length_le (List.prefix_append x b) h (by omega)
      obtain ⟨d, rfl⟩ := hx
      obtain ⟨r, hr⟩ := h
      rw [List.append_assoc] at hr
      have hd : d ++ r = b := (List.append_right_inj x).mp hr
      rw [List.drop_left]
      exact ⟨r, hd⟩

/-- No occurrence of `p` can straddle the junction of `x ++ b` when no
nonempty proper tail of `p` starts `b`. -/
theorem pfx_append_eq_of_drop {p x b : Str} (hx : x ≠ [])
    (h : ∀ j, 0 < j → j < p.length → ¬ (p.drop j <+: b)) :
    p.isPrefixOf (x ++ b) = p.isPrefixOf x := by
  cases hb : p.isPrefixOf x with
  | true =>
    have := pfx_append_left (x := x) b hb
    rw [this]
  | false =>
    cases hab : p.isPrefixOf (x ++ b) with
    | false => rfl
    | true =>
      exfalso
      rw [List.isPrefixOf_iff_prefix] at hab
      rcases pfx_append_cases hab with h1 | ⟨h2, _, h4⟩
      · rw [← List.isPrefixOf_iff_prefix] at h1
        rw [h1] at hb
        exact Bool.noConfusion hb
      · have hxlen : 0 < x.length := List.length_pos.mpr hx
        exact h x.length hxlen h2 h4

/-- No occurrence of `p` can straddle the junction of `x ++ b` when no
nonempty proper head of `p` ends `x`. -/
theorem pfx_append_eq_of_take {p x b : Str} (hx : x ≠ [])
    (h : ∀ j, 0 < j → j < p.length → ¬ (p.take j <:+ x)) :
    p.isPrefixOf (x ++ b) = p.isPrefixOf x := by
  cases hb : p.isPrefixOf x with
  | true =>
    have := pfx_append_left (x := x) b hb
    rw [this]
  | false =>
    cases hab : p.isPrefixOf (x ++ b) with
    | false => rfl
    | true =>
      exfalso
      rw [List.isPrefixOf_iff_prefix] at hab
      rcases pfx_append_cases hab with h1 | ⟨h2, h3, _⟩
      · rw [← List.isPrefixOf_iff_prefix] at h1
        rw [h1] at hb
        exact Bool.noConfusion hb
      · have hxlen : 0 < x.length := List.length_pos.mpr hx
        refine h x.length hxlen h2 ?_
        rw [List.prefix_iff_eq_take] at h3
        rw [← h3]

theorem countAux_eq_of_drop {p : Str} (b : Str)
    (h : ∀ j, 0 < j → j < p.length → ¬ (p.drop j <+: b)) :
    ∀ a, countAux p b a = countSub p a := by
  intro a
  induction a with
  | nil => rfl
  | cons c t ih =>
    simp only [countAux, countSub, ih, List.cons_append]
    have he := pfx_append_eq_of_drop (x := c :: t) (b := b) (List.cons_ne_nil c t) h
    rw [List.cons_append] at he
    simp only [he]

theorem countAux_eq_of_take {p b : Str} :
    ∀ a, (∀ j, 0 < j → j < p.length → ¬ (p.take j <:+ a)) →
      countAux p b a = countSub p a := by
  intro a
  induction a with
  | nil => intro _; rfl
  | cons c t ih =>
    intro h
    have ht : ∀ j, 0 < j → j < p.length → ¬ (p.take j <:+ t) := by
      intro j h1 h2 hs
      exact h j h1 h2 (hs.trans (List.suffix_cons c t))
    simp only [countAux, countSub, ih ht, List.cons_append]
    have he := pfx_append_eq_of_take (x := c :: t) (b := b) (List.cons_ne_nil c t) h
    rw [List.cons_append] at he
    simp only [he]

theorem not_pfx_of_head_ne {c d : Char} {l m : Str} (h : c ≠ d) :
    ¬ (c :: l <+: d :: m) := fun hp => h (List.cons_prefix_cons.mp hp).1

theorem suffix_getLast {a b : Str} (h : a <:+ b) (ha : a ≠ []) :
    b.getLast? = a.getLast? := by
  obtain ⟨w, rfl⟩ := h
  exact List.getLast?_append_of_ne_nil w ha

theorem infix_of_countSub_pos {p : Str} :
    ∀ {s}, 1 ≤ countSub p s → p <:+: s := by
  intro s
  induction s with
  | nil => intro h; simp [countSub] at h
  | cons c t ih =>
    intro h
    simp only [countSub] at h
    by_cases hp : p.isPrefixOf (c :: t) = true
    · rw [List.isPrefixOf_iff_prefix] at hp
      exact hp.isInfix
    · rw [if_neg hp] at h
      exact List.infix_cons (ih (by omega))

theorem one_le_countSub_self_append (p y : Str) (hp : p ≠ []) :
    1 ≤ countSub p (p ++ y) := by
  obtain ⟨c, t, rfl⟩ := List.exists_cons_of_ne_nil hp
  show 1 ≤ countSub (c :: t) (c :: (t ++ y))
  simp only [countSub]
  have : (c :: t).isPrefixOf ((c :: t) ++ y) = true :=
    pfx_append_left y (by rw [List.isPrefixOf_iff_prefix])
  rw [List.cons_append] at this
  simp [this]

theorem countSub_le_of_pfx (p : Str) {a b : Str} (h : a <+: b) :
    countSub p a ≤ countSub p b := by
  obtain ⟨t, rfl⟩ := h
  have := countSub_append_ge p a t
  omega

/-!
### Lines: `splitCh`, `joinNl`, `rstrip`
-/

theorem countSub_cons_nl {p : Str} (hp : p ≠ []) (hnl : '\n' ∉ p) (b : Str) :
    countSub p ('\n' :: b) = countSub p b := by
  simp only [countSub]
  have hno : ¬ (p.isPrefixOf ('\n' :: b) = true) := by
    intro h
    rw [List.isPrefixOf_iff_prefix] at h
    obtain ⟨e, w, rfl⟩ := List.exists_cons_of_ne_nil hp
    have := (List.cons_prefix_cons.mp h).1
    subst this
    exact hnl (List.mem_cons_self _ _)
  rw [if_neg hno]
  omega

theorem countSub_append_nl {p : Str} (hp : p ≠ []) (hnl : '\n' ∉ p) (a b : Str) :
    countSub p (a ++ '\n' :: b) = countSub p a + countSub p b := by
  rw [countSub_append, countAux_eq_of_drop, countSub_cons_nl hp hnl]
  intro j hj hjl hpfx
  have hne : p.drop j ≠ [] := by
    intro hnil
    have := List.length_drop j p
    rw [hnil] at this
    simp at this
    omega
  obtain ⟨e, w, hew⟩ := List.exists_cons_of_ne_nil hne
  rw [hew] at hpfx
  have : e = '\n' := (List.cons_prefix_cons.mp hpfx).1
  subst this
  have : '\n' ∈ p.drop j := by rw [hew]; exact List.mem_cons_self _ _
  exact hnl (List.drop_subset j p this)

theorem countSub_joinNl {p : Str} (hp : p ≠ []) (hnl : '\n' ∉ p) :
    ∀ ls, countSub p (joinNl ls) = (ls.map (countSub p)).sum := by
  intro ls
  induction ls with
  | nil => rfl
  | cons l ls ih =>
    cases ls with
    | nil => simp [joinNl]
    | cons m rest =>
      show countSub p (l ++ '\n' :: joinNl (m :: rest)) = _
      rw [countSub_append_nl hp hnl, ih]
      simp

theorem splitCh_ne_nil (sep : Char) : ∀ s, splitCh sep s ≠ [] := by
  intro s
  cases s with
  | nil => simp [splitCh]
  | cons c t =>
    simp only [splitCh]
    split
    · simp
    · split <;> simp

theorem splitCh_cons_self (sep : Char) (t : Str) :
    splitCh sep (sep :: t) = [] :: splitCh sep t := by
  simp [splitCh]

theorem splitCh_cons_ne {sep c : Char} (h : ¬ c = sep) (t : Str) :
    splitCh sep (c :: t) =
      match splitCh sep t with
      | [] => [[c]]
      | l :: ls => (c :: l) :: ls := by
  have hb : (c == sep) = false := by simpa using h
  simp [splitCh, hb]

theorem joinNl_splitNl : ∀ s, joinNl (splitCh '\n' s) = s := by
  intro s
  induction s with
  | nil => rfl
  | cons c t ih =>
    by_cases hc : c = '\n'
    · subst hc
      rw [splitCh_cons_self]
      obtain ⟨l, ls, hls⟩ := List.exists_cons_of_ne_nil (splitCh_ne_nil '\n' t)
      rw [hls]
      show ([] : Str) ++ '\n' :: joinNl (l :: ls) = _
      rw [← hls, ih]
      rfl
    · rw [splitCh_cons_ne hc]
      rcases hls : splitCh '\n' t with _ | ⟨l, ls⟩
      · exact absurd hls (splitCh_ne_nil '\n' t)
      · rw [hls] at ih
        cases ls with
        | nil =>
          show (c :: l : Str) = c :: t
          simp only [joinNl] at ih
          rw [ih]
        | cons m rest =>
          show (c :: l) ++ '\n' :: joinNl (m :: rest) = c :: t
          simp only [joinNl] at ih
          simp [← ih]

theorem splitCh_no_sep (sep : Char) : ∀ s l, l ∈ splitCh sep s → sep ∉ l := by
  intro s
  induction s with
  | nil =>
    intro l hl
    simp [splitCh] at hl
    simp [hl]
  | cons c t ih =>
    intro l hl
    by_cases hc : c = sep
    · subst hc
      rw [splitCh_cons_self] at hl
      rcases List.mem_cons.mp hl with h | h
      · simp [h]
      · exact ih l h
    · rw [splitCh_cons_ne hc] at hl
      rcases hls : splitCh sep t with _ | ⟨x, xs⟩
      · exact absurd hls (splitCh_ne_nil sep t)
      · rw [hls] at hl
        rcases List.mem_cons.mp hl with h | h
        · subst h
          intro hmem
          rcases List.mem_cons.mp hmem with h | h
          · exact hc h.symm
          · exact ih x (by rw [hls]; exact List.mem_cons_self x xs) h
        · exact ih l (by rw [hls]; exact List.mem_cons_of_mem x h)

theorem rstrip_pfx (l : Str) : rstrip l <+: l := by
  have h := List.dropWhile_suffix (l := l.reverse) pyWs
  have h2 := List.reverse_prefix.mpr h
  rwa [List.reverse_reverse] at h2

theorem countSub_rstrip_le (p l : Str) : countSub p (rstrip l) ≤ countSub p l :=
  countSub_le_of_pfx p (rstrip_pfx l)

/-!
### `add_import_if_not_present` does not create occurrences
-/

theorem aiScan_out_sum_le {p : Str} (imp : Str) :
    ∀ ls seen i last cont,
      (((aiScan imp seen i last cont ls).1).map (countSub p)).sum ≤
        (ls.map (countSub p)).sum := by
  intro ls
  induction ls with
  | nil => intro seen i last cont; simp [aiScan]
  | cons l ls ih =>
    intro seen i last cont
    simp only [aiScan]
    split
    · have := ih seen (i + 1) last cont
      simp only [List.map_cons, List.sum_cons]
      omega
    · split
      · simp only [List.map_cons, List.sum_cons]
        have := ih (rstrip l :: seen) (i + 1) i (cont || imp.isSuffixOf (rstrip l))
        have h2 := countSub_rstrip_le p l
        omega
      · simp only [List.map_cons, List.sum_cons]
        have := ih seen (i + 1) last cont
        have h2 := countSub_rstrip_le p l
        omega

theorem insertClamp_map_sum (f : Str → Nat) :
    ∀ n x ls, ((insertClamp n x ls).map f).sum = f x + (ls.map f).sum := by
  intro n x ls
  induction ls generalizing n with
  | nil => cases n <;> simp [insertClamp]
  | cons l t ih =>
    cases n with
    | zero => simp [insertClamp]
    | succ m =>
      simp only [insertClamp, List.map_cons, List.sum_cons, ih m]
      omega

theorem insertClamp_mem :
    ∀ n x ls y, y ∈ insertClamp n x ls → y = x ∨ y ∈ ls := by
  intro n x ls
  induction ls generalizing n with
  | nil =>
    intro y hy
    cases n <;> simp [insertClamp] at hy <;> simp [hy]
  | cons l t ih =>
    intro y hy
    cases n with
    | zero =>
      simp only [insertClamp] at hy
      rcases List.mem_cons.mp hy with h | h
      · exact Or.inl h
      · exact Or.inr h
    | succ m =>
      simp only [insertClamp] at hy
      rcases List.mem_cons.mp hy with h | h
      · exact Or.inr (h ▸ List.mem_cons_self l t)
      · rcases ih m y h with h2 | h2
        · exact Or.inl h2
        · exact Or.inr (List.mem_cons_of_mem l h2)

theorem countSub_add_import_le {p : Str} (hp : p ≠ []) (hnl : '\n' ∉ p)
    {imp : Str} (h0 : countSub p imp = 0) (c : Str) :
    countSub p (add_import_if_not_present imp c) ≤ countSub p c := by
  simp only [add_import_if_not_present]
  have hsum := aiScan_out_sum_le (p := p) imp (splitCh '\n' c) [] 0 1 false
  have hc : countSub p c = ((splitCh '\n' c).map (countSub p)).sum := by
    conv_lhs => rw [← joinNl_splitNl c]
    exact countSub_joinNl hp hnl _
  rw [hc]
  split
  · rw [countSub_joinNl hp hnl _]
    exact hsum
  · rw [countSub_joinNl hp hnl _]
    rw [insertClamp_map_sum]
    omega

/-!
### Termination of the `remove_sdk_helper_create` loop
-/

theorem one_le_countSub_self {p : Str} (hp : p ≠ []) : 1 ≤ countSub p p := by
  have := one_le_countSub_self_append p [] hp
  rwa [List.append_nil] at this

theorem not_pfx_head {e d : Char} {w z : Str} (hz : z.head? = some d) (hne : e ≠ d) :
    ¬ ((e :: w) <+: z) := by
  intro h
  obtain ⟨r, hr⟩ := h
  rw [← hr] at hz
  simp at hz
  exact hne hz

theorem not_sfx_last {e d : Char} {a z : Str} (hz : z.getLast? = some d)
    (ha : a.getLast? = some e) (hne : e ≠ d) : ¬ (a <:+ z) := by
  intro h
  have hane : a ≠ [] := by
    intro h0
    rw [h0, List.getLast?_nil] at ha
    exact Option.noConfusion ha
  rw [suffix_getLast h hane, ha] at hz
  exact hne (Option.some.injEq _ _ ▸ hz :)

theorem cutAtSub_pfx (pat : Str) : ∀ l, cutAtSub pat l <+: l := by
  intro l
  induction l with
  | nil => simp [cutAtSub]
  | cons c t ih =>
    simp only [cutAtSub]
    split
    · exact List.nil_prefix
    · exact List.cons_prefix_cons.mpr ⟨rfl, ih⟩

theorem classNameOf_no_paren (g : Str) : '(' ∉ classNameOf g := by
  intro hm
  have h1 : '(' ∈ betweenParens g :=
    (cutAtSub_pfx (cs ".class") (betweenParens g)).subset hm
  have h2 := List.mem_takeWhile_imp h1
  simp at h2

theorem sdkHead_decomp {s : Str} (h : sdkHeadMatch s = true) :
    ∃ d rest, s = cs "SdkHelper" ++ d :: (cs "create(" ++ rest) := by
  unfold sdkHeadMatch at h
  rw [Bool.and_eq_true] at h
  obtain ⟨h1, h2⟩ := h
  rw [List.isPrefixOf_iff_prefix] at h1
  obtain ⟨u, hu⟩ := h1
  subst hu
  rw [show (9 : Nat) = (cs "SdkHelper").length from rfl, List.drop_left] at h2
  cases u with
  | nil => simp at h2
  | cons d r =>
    rw [Bool.and_eq_true] at h2
    obtain ⟨_, h3⟩ := h2
    rw [List.isPrefixOf_iff_prefix] at h3
    obtain ⟨rest, hr⟩ := h3
    exact ⟨d, rest, by rw [← hr]⟩

theorem countCreate_head_block {g : Str} (hhead : sdkHeadMatch g = true)
    {n : Nat} (hn : 17 ≤ n) : 1 ≤ countCreate (g.take n) := by
  obtain ⟨d, rest, rfl⟩ := sdkHead_decomp hhead
  have hassoc :
      cs "SdkHelper" ++ d :: (cs "create(" ++ rest) =
        (cs "SdkHelper" ++ d :: cs "create(") ++ rest := by
    simp
  rw [hassoc]
  have hY : (cs "SdkHelper" ++ d :: cs "create(").length = 17 := by
    simp [cs]
  rw [List.take_append_eq_append_take, List.take_of_length_le (by omega), hY]
  unfold countCreate
  calc 1 ≤ countSub (cs "create(") (cs "SdkHelper" ++ d :: cs "create(") := by
        rw [List.append_cons]
        have h1 := countSub_append_ge (cs "create(")
          (cs "SdkHelper" ++ [d]) (cs "create(")
        have h2 := one_le_countSub_self (p := cs "create(") (by decide)
        omega
    _ ≤ _ := by
        have := countSub_append_ge (cs "create(")
          (cs "SdkHelper" ++ d :: cs "create(") (rest.take (n - 17))
        omega

theorem sdkSearch_decomp {semi : Bool} :
    ∀ {s p g q : Str}, sdkSearch semi s = some (p, g, q) →
      s = p ++ g ++ q ∧ 1 ≤ countCreate g := by
  intro s
  induction s with
  | nil => intro p g q h; simp [sdkSearch] at h
  | cons c t ih =>
    intro p g q h
    simp only [sdkSearch] at h
    split at h
    · rename_i hhead
      split at h
      · rename_i k hk
        simp only [Option.some.injEq, Prod.mk.injEq] at h
        obtain ⟨hp, hg, hq⟩ := h
        subst hp hg hq
        constructor
        · rw [List.nil_append, List.take_append_drop]
        · exact countCreate_head_block hhead (by split <;> omega)
      · rw [Option.map_eq_some'] at h
        obtain ⟨⟨p', g', q'⟩, hs, hf⟩ := h
        simp only [Prod.mk.injEq] at hf
        obtain ⟨hp, hg, hq⟩ := hf
        subst hp hg hq
        obtain ⟨hteq, hcnt⟩ := ih hs
        exact ⟨by rw [List.cons_append, List.cons_append, ← hteq], hcnt⟩
    · rw [Option.map_eq_some'] at h
      obtain ⟨⟨p', g', q'⟩, hs, hf⟩ := h
      simp only [Prod.mk.injEq] at hf
      obtain ⟨hp, hg, hq⟩ := hf
      subst hp hg hq
      obtain ⟨hteq, hcnt⟩ := ih hs
      exact ⟨by rw [List.cons_append, List.cons_append, ← hteq], hcnt⟩

/-- Splicing the builder chain in place of the matched span introduces no
new `create(` occurrence: the builder text contains none, the class name
contains no `(`, and no occurrence can straddle any junction. -/
theorem countSub_splice (pre post cn : Str) (hcn : '(' ∉ cn) :
    countCreate (pre ++ builderFor cn ++ post) =
      countCreate pre + countCreate post := by
  unfold countCreate builderFor
  set p : Str := cs "create(" with hpdef
  set A : Str := cs "PageObjectBuilder.withContext(SdkHelper.getDriverContext()).forBaseComponent(" with hAdef
  set B : Str := cs ".class).initialize();" with hBdef
  have hdropblock : ∀ z : Str, z.head? = some '.' →
      ∀ j, 0 < j → j < p.length → ¬ (p.drop j <+: z) := by
    intro z hz j hj hjl
    have h7 : p.length = 7 := rfl
    rw [h7] at hjl
    interval_cases j
    · exact not_pfx_head (w := cs "eate(") hz (by decide)
    · exact not_pfx_head (w := cs "ate(") hz (by decide)
    · exact not_pfx_head (w := cs "te(") hz (by decide)
    · exact not_pfx_head (w := cs "e(") hz (by decide)
    · exact not_pfx_head (w := cs "(") hz (by decide)
    · exact not_pfx_head (w := ([] : Str)) hz (by decide)
  have htakeblock : ∀ z : Str, (z.getLast? = some '(' ∨ z.getLast? = some ';') →
      ∀ j, 0 < j → j < p.length → ¬ (p.take j <:+ z) := by
    intro z hz j hj hjl
    have h7 : p.length = 7 := rfl
    rw [h7] at hjl
    rcases hz with hz | hz
    · interval_cases j
      · exact not_sfx_last hz (e := 'c') rfl (by decide)
      · exact not_sfx_last hz (e := 'r') rfl (by decide)
      · exact not_sfx_last hz (e := 'e') rfl (by decide)
      · exact not_sfx_last hz (e := 'a') rfl (by decide)
      · exact not_sfx_last hz (e := 't') rfl (by decide)
      · exact not_sfx_last hz (e := 'e') rfl (by decide)
    · interval_cases j
      · exact not_sfx_last hz (e := 'c') rfl (by decide)
      · exact not_sfx_last hz (e := 'r') rfl (by decide)
      · exact not_sfx_last hz (e := 'e') rfl (by decide)
      · exact not_sfx_last hz (e := 'a') rfl (by decide)
      · exact not_sfx_last hz (e := 't') rfl (by decide)
      · exact not_sfx_last hz (e := 'e') rfl (by decide)
  have hcn0 : countSub p cn = 0 := by
    by_contra h0
    have h1 : 1 ≤ countSub p cn := Nat.one_le_iff_ne_zero.mpr h0
    have h2 := (infix_of_countSub_pos h1).subset
    exact hcn (h2 (by rw [hpdef]; decide))
  have hA0 : countSub p A = 0 := by rw [hpdef, hAdef]; decide
  have hB0 : countSub p B = 0 := by rw [hpdef, hBdef]; decide
  have hAlast : A.getLast? = some '(' := by rw [hAdef]; rfl
  have hBhead : B.head? = some '.' := by rw [hBdef]; rfl
  -- countSub p (cn ++ B) = countSub p cn + countSub p B
  have hcnB : countSub p (cn ++ B) = 0 := by
    rw [countSub_append, countAux_eq_of_drop B (hdropblock B hBhead), hcn0, hB0]
  -- the middle block
  have hMeq : (A ++ cn ++ B : Str) = A ++ (cn ++ B) := by rw [List.append_assoc]
  have hM : countSub p (A ++ cn ++ B) = 0 := by
    rw [hMeq, countSub_append, countAux_eq_of_take A (htakeblock A (Or.inl hAlast)),
      hA0, hcnB]
  have hMlast : (A ++ cn ++ B : Str).getLast? = some ';' := by
    rw [List.getLast?_append_of_ne_nil _ (by rw [hBdef]; decide), hBdef]
    rfl
  have hAne : A ≠ [] := by rw [hAdef]; decide
  have hACne : (A ++ cn : Str) ≠ [] := by
    intro h0
    exact hAne (List.append_eq_nil.mp h0).1
  have hMne : (A ++ cn ++ B : Str) ≠ [] := by
    intro h0
    exact hACne (List.append_eq_nil.mp h0).1
  have hMhead : ∀ z : Str, ((A ++ cn ++ B) ++ z : Str).head? = some 'P' := by
    intro z
    rw [List.head?_append_of_ne_nil _ hMne,
      List.head?_append_of_ne_nil _ hACne,
      List.head?_append_of_ne_nil _ hAne, hAdef]
    rfl
  -- assemble
  have hMpost : countSub p ((A ++ cn ++ B) ++ post) = countSub p post := by
    rw [countSub_append,
      countAux_eq_of_take (A ++ cn ++ B)
        (htakeblock (A ++ cn ++ B) (Or.inr hMlast)), hM]
    omega
  have hfront :
      countSub p (pre ++ ((A ++ cn ++ B) ++ post)) =
        countSub p pre + countSub p post := by
    rw [countSub_append]
    have hblock : ∀ j, 0 < j → j < p.length →
        ¬ (p.drop j <+: ((A ++ cn ++ B) ++ post)) := by
      intro j hj hjl
      have h7 : p.length = 7 := rfl
      rw [h7] at hjl
      interval_cases j
      · exact not_pfx_head (w := cs "eate(") (hMhead post) (by decide)
      · exact not_pfx_head (w := cs "ate(") (hMhead post) (by decide)
      · exact not_pfx_head (w := cs "te(") (hMhead post) (by decide)
      · exact not_pfx_head (w := cs "e(") (hMhead post) (by decide)
      · exact not_pfx_head (w := cs "(") (hMhead post) (by decide)
      · exact not_pfx_head (w := ([] : Str)) (hMhead post) (by decide)
    rw [countAux_eq_of_drop _ hblock, hMpost]
  calc countSub p (pre ++ (A ++ cn ++ B) ++ post)
      = countSub p (pre ++ ((A ++ cn ++ B) ++ post)) := by rw [List.append_assoc]
    _ = countSub p pre + countSub p post := hfront

/-- Each iteration of the loop strictly decreases the number of
`create(` occurrences. -/
theorem sdkStep_decrease {semi : Bool} {s p g q : Str}
    (h : sdkSearch semi s = some (p, g, q)) :
    countCreate (sdkStep p g q) < countCreate s := by
  obtain ⟨hs, hg⟩ := sdkSearch_decomp h
  subst hs
  unfold sdkStep
  have h1 : countCreate (add_import_if_not_present builderImport
      (p ++ builderFor (classNameOf g) ++ q)) ≤
      countCreate (p ++ builderFor (classNameOf g) ++ q) :=
    countSub_add_import_le (by decide) (by decide) (by decide) _
  have h2 := countSub_splice p q (classNameOf g) (classNameOf_no_paren g)
  have h3 := countSub_append_ge (cs "create(") (p ++ g) q
  have h4 := countSub_append_ge (cs "create(") p g
  unfold countCreate at *
  omega

theorem sdkLoop_some :
    ∀ n s, countCreate s < n →
      ∃ t, sdkLoop n s = some t ∧ sdkSearch false t = none := by
  intro n
  induction n with
  | zero => intro s h; omega
  | succ m ih =>
    intro s h
    rcases hs : sdkSearch false s with _ | ⟨⟨p, g, q⟩⟩
    · exact ⟨s, by simp [sdkLoop, hs], hs⟩
    · have hd := sdkStep_decrease hs
      obtain ⟨t, ht1, ht2⟩ := ih (sdkStep p g q) (by omega)
      exact ⟨t, by simp [sdkLoop, hs, ht1], ht2⟩

/-!
### The duplicate-import invariant of `replace_imports`
-/

theorem contains_iff_mem {l : List Str} {x : Str} : l.contains x = true ↔ x ∈ l := by
  simp [List.contains]

theorem splitCh_of_no_sep {sep : Char} : ∀ {l : Str}, sep ∉ l → splitCh sep l = [l] := by
  intro l
  induction l with
  | nil => intro _; rfl
  | cons c t ih =>
    intro h
    have hc : ¬ c = sep := fun he => h (he ▸ List.mem_cons_self c t)
    rw [splitCh_cons_ne hc, ih (fun hm => h (List.mem_cons_of_mem c hm))]

theorem splitCh_append_cons {sep : Char} :
    ∀ {l : Str}, sep ∉ l → ∀ z, splitCh sep (l ++ sep :: z) = l :: splitCh sep z := by
  intro l
  induction l with
  | nil => intro _ z; exact splitCh_cons_self sep z
  | cons c t ih =>
    intro h z
    have hc : ¬ c = sep := fun he => h (he ▸ List.mem_cons_self c t)
    show splitCh sep (c :: (t ++ sep :: z)) = _
    rw [splitCh_cons_ne hc, ih (fun hm => h (List.mem_cons_of_mem c hm)) z]

theorem splitNl_joinNl :
    ∀ xs : List Str, (∀ l ∈ xs, '\n' ∉ l) → xs ≠ [] →
      splitCh '\n' (joinNl xs) = xs := by
  intro xs
  induction xs with
  | nil => intro _ h; exact absurd rfl h
  | cons l ls ih =>
    intro h _
    cases ls with
    | nil =>
      show splitCh '\n' l = [l]
      exact splitCh_of_no_sep (h l (List.mem_cons_self l []))
    | cons m rest =>
      show splitCh '\n' (l ++ '\n' :: joinNl (m :: rest)) = _
      rw [splitCh_append_cons (h l (List.mem_cons_self l _)) _,
        ih (fun x hx => h x (List.mem_cons_of_mem l hx)) (by simp)]

theorem dedupLines_sub : ∀ (ls seen : List Str) (l : Str),
    l ∈ dedupLines seen ls → l ∈ ls := by
  intro ls
  induction ls with
  | nil => intro seen l h; simp [dedupLines] at h
  | cons x xs ih =>
    intro seen l h
    simp only [dedupLines] at h
    split at h
    · exact List.mem_cons_of_mem x (ih seen l h)
    · split at h
      · rcases List.mem_cons.mp h with h1 | h1
        · exact h1 ▸ List.mem_cons_self x xs
        · exact List.mem_cons_of_mem x (ih (x :: seen) l h1)
      · rcases List.mem_cons.mp h with h1 | h1
        · exact h1 ▸ List.mem_cons_self x xs
        · exact List.mem_cons_of_mem x (ih seen l h1)

theorem dedupLines_nil_ne_nil (x : Str) (rest : List Str) :
    dedupLines [] (x :: rest) ≠ [] := by
  simp only [dedupLines]
  split
  · rename_i hc
    simp [List.contains] at hc
  · split <;> simp

theorem dedupLines_imports_nodup :
    ∀ (ls seen : List Str),
      ((dedupLines seen ls).filter isImportLine).Nodup ∧
        ∀ l ∈ (dedupLines seen ls).filter isImportLine, l ∉ seen := by
  intro ls
  induction ls with
  | nil => intro seen; simp [dedupLines]
  | cons l ls ih =>
    intro seen
    simp only [dedupLines]
    split
    · exact ih seen
    · rename_i hcont
      have hlmem : l ∉ seen := fun hm => hcont (contains_iff_mem.mpr hm)
      split
      · rename_i himp
        obtain ⟨ihn, ihs⟩ := ih (l :: seen)
        constructor
        · rw [List.filter_cons_of_pos himp]
          refine List.nodup_cons.mpr ⟨?_, ihn⟩
          intro hmem
          exact (ihs l hmem) (List.mem_cons_self l seen)
        · intro x hx
          rw [List.filter_cons_of_pos himp] at hx
          rcases List.mem_cons.mp hx with h | h
          · exact h ▸ hlmem
          · exact fun hxs => (ihs x h) (List.mem_cons_of_mem l hxs)
      · rename_i himp
        obtain ⟨ihn, ihs⟩ := ih seen
        constructor
        · rw [List.filter_cons_of_neg (by simpa using himp)]
          exact ihn
        · intro x hx
          rw [List.filter_cons_of_neg (by simpa using himp)] at hx
          exact ihs x hx

/-- The import-dedup invariant holds of the output of `replace_imports`:
its import lines are pairwise distinct. -/
theorem replace_imports_imports_nodup (c : Str) :
    ((splitCh '\n' (replace_imports c)).filter isImportLine).Nodup := by
  unfold replace_imports
  have hlines : ∀ l ∈ dedupLines [] (splitCh '\n' (applySubs importPairs c)), '\n' ∉ l := by
    intro l hl
    exact splitCh_no_sep '\n' _ l (dedupLines_sub _ [] l hl)
  obtain ⟨x, rest, hx⟩ :=
    List.exists_cons_of_ne_nil (splitCh_ne_nil '\n' (applySubs importPairs c))
  rw [splitNl_joinNl _ hlines (by rw [hx]; exact dedupLines_nil_ne_nil x rest)]
  exact (dedupLines_imports_nodup _ []).1

/-!
### Behaviour of a single capability entry with scope `[<t>_all]`
-/

/-- Processing one capability entry whose scope list is the single entry
`android_all`: the key is renamed exactly when the quoted key is present
and the lower-cased document contains `android`. -/
theorem processCap_single_android (c : Str) (cap : String) :
    processCap c cap ["android_all"] =
      if hasSub c (cs ("\"" ++ cap ++ "\"")) && hasSub (lowerStr c) (cs "android")
      then update_single_capability c cap
      else c := by
  have hsplit : splitCh '_' (cs "android_all") = [cs "android", cs "all"] := by decide
  have hcont : (["android_all"] : List String).contains "all" = false := by decide
  unfold processCap
  rw [hcont]
  by_cases h1 : hasSub c (cs ("\"" ++ cap ++ "\"")) = true
  · by_cases h2 : hasSub (lowerStr c) (cs "android") = true
    · simp [h1, h2, applyScope, hsplit]
    · rw [Bool.not_eq_true] at h2
      simp [h1, h2, applyScope, hsplit]
  · rw [Bool.not_eq_true] at h1
    simp [h1]

/-!
## The claims

Concrete inputs used by several of the claim theorems.
-/

/-- The spec's concrete locator scenario (C1). -/
def locatorScenario : Str :=
  cs "public class P\n\n@Locate(css = \".btn\")\nprivate Button btn;"

/-- Two distinct import lines that the configuration-manager substitution
rewrites to the same line (C4/C5). -/
def dupImportInput : Str :=
  cs "import EnvironmentConfigurationManager.get()\nimport EnvironmentConfigurationManagerXget()"

/-- A representative input exercising the import remap, the locator
rewrite, the configuration-accessor rewrite and the factory-call rewrite
(C4). -/
def idemInput : Str :=
  cs "import com.applause.util.A;\n\n@Locate(xpath = \"//a\")\nprivate B b;\nApplauseEnvironmentConfigurationManager.get();\nSdkHelper.create(Foo.class);\n"

/-- A file whose final text triggers the sub-component warning. -/
def warnContent : Str := cs "@Locate(foo)\nx"

/-- Snapshot: one Java file given directly on the command line (C2). -/
def fsDirect : FileSys := ⟨[("A.java", warnContent)], []⟩

/-- Snapshot: one Java file found by walking directory `d` (C2). -/
def fsWalk : FileSys := ⟨[("d/sub/A.java", warnContent)], [("d", [("d/sub", ["A.java"])])]⟩

/-- Snapshot: two files with the same basename in different subdirectories
of `d`; only the first would warn (C2). -/
def fsCollide : FileSys :=
  ⟨[("d/s1/A.java", warnContent), ("d/s2/A.java", cs "clean")],
   [("d", [("d/s1", ["A.java"]), ("d/s2", ["A.java"])])]⟩

/-- Snapshot: a `pom.xml` in a subdirectory of walked directory `proj`,
with no file named `pom.xml` relative to the working directory (C8). -/
def fsPomWalk : FileSys :=
  ⟨[("proj/sub/pom.xml", cs "x")], [("proj", [("proj/sub", ["pom.xml"])])]⟩

/-- Snapshot: an existing `subdir/pom.xml` plus a Java file (C9). -/
def fsPomArg : FileSys :=
  ⟨[("subdir/pom.xml", cs "x"), ("B.java", cs "y")], []⟩

/-- C1: the fourteen legacy spellings are indeed all rewritten, but on the
spec's concrete scenario the strategy import is never inserted: the first
loop of `fix_locators` tests `old_style_locator in contents` — a literal
substring test of the regex *source text* (`@Locate\(\s*css = `, with
backslashes) — which no ordinary Java file satisfies, so
`add_import_if_not_present` is unreachable and the output contains
the import zero times, not exactly once. -/
theorem claim_C1 :
    convert_java_text locatorScenario =
      cs "public class P\n\n@Locate(using = Strategy.CSS, value = \".btn\")\nprivate Button btn;" ∧
    hasSub (convert_java_text locatorScenario)
      (cs "import com.applause.auto.pageobjectmodel.base.Strategy;") = false := by
  constructor
  · decide
  · decide

/-- C2 (counterexample): a `.java` file supplied directly as a
command-line argument produces a warning, but the run's output is just
the progress line — `main` discards the warning list returned by
`convert_java` for direct file arguments, so no `A.java warnings:` header
is printed. -/
theorem claim_C2_counterexample :
    mainRun id fsDirect ["A.java"] = some (["Converted A.java"], fsDirect) ∧
    convert_java_warnings warnContent = [some subComponentWarning] := by
  constructor
  · decide
  · decide

/-- C2 (amended): the warning is reported under the `<filename> warnings:`
header only for files discovered via the directory walk, and the warnings
dict is keyed by bare basename, so a warning-free later file with the
same basename in another subdirectory overwrites (and thus suppresses)
the earlier file's warning. -/
theorem claim_C2 :
    mainRun id fsWalk ["d"] =
      some (["Converted d/sub/A.java", "A.java warnings:",
             "  - " ++ String.mk subComponentWarning], fsWalk) ∧
    mainRun id fsCollide ["d"] =
      some (["Converted d/s1/A.java", "Converted d/s2/A.java"],
            ⟨[("d/s1/A.java", warnContent), ("d/s2/A.java", cs "clean")],
             fsCollide.walks⟩) := by
  constructor
  · decide
  · decide

/-- C3: the two accessor patterns are regexes in which `.` is a wildcard
and the trailing `()` an empty group, so the matched span stops after
`get` and the original `()` survives the substitution: the rewrite of
`ApplauseEnvironmentConfigurationManager.get()` produces
`ApplauseEnvironmentConfigurationManager.INSTANCE.get()()`, not the
claimed `ApplauseEnvironmentConfigurationManager.INSTANCE.get()`. -/
theorem claim_C3 :
    check_for_applause_config_usage
        (cs "x = ApplauseEnvironmentConfigurationManager.get();") =
      cs "x = ApplauseEnvironmentConfigurationManager.INSTANCE.get()();" ∧
    check_for_config_usage (cs "y = EnvironmentConfigurationManager.get();") =
      cs "y = EnvironmentConfigurationManager.INSTANCE.get()();" := by
  constructor
  · decide
  · decide

/-- C4 (counterexample): the Java rewrite is not idempotent.  On
`dupImportInput` the first run rewrites two distinct import lines to the
same text; the second run's import deduplication then removes the
duplicate, so running the pass sequence twice differs from running it
once. -/
theorem claim_C4_counterexample :
    convert_java_text (convert_java_text dupImportInput) ≠
      convert_java_text dupImportInput := by
  decide

/-- C4 (amended): idempotence fails only when a run leaves two
identical import lines (as in the counterexample); on a representative input
exercising every pass — import remap, locator rewrite, both
configuration-accessor rewrites and the factory-call rewrite — the second
run leaves the output unchanged. -/
theorem claim_C4 :
    convert_java_text (convert_java_text idemInput) = convert_java_text idemInput := by
  decide

/-- C5 (counterexample): the full pipeline can output two
byte-identical import lines: the configuration-accessor substitution maps the two
distinct import lines of `dupImportInput` to the same text *after* the
deduplication pass has run. -/
theorem claim_C5_counterexample :
    ¬ ((splitCh '\n' (convert_java_text dupImportInput)).filter isImportLine).Nodup := by
  decide

/-- C5 (amended): the import-dedup invariant holds of the
`replace_imports` pass itself: for every input, the lines of its output
that satisfy the import-line test (first six characters `import`) are
pairwise distinct.  Later passes can break the invariant (see the
counterexample). -/
theorem claim_C5 (c : Str) :
    ((splitCh '\n' (replace_imports c)).filter isImportLine).Nodup :=
  replace_imports_imports_nodup c

/-- C6 (counterexample): `str.replace` rewrites occurrences left to right
without overlap, so in `"app"app"` — where the two occurrences of
`"app"` share a quote — only the first is renamed and a literal
occurrence of the quoted key survives in the output, contradicting
"every literal occurrence is replaced". -/
theorem claim_C6_counterexample :
    update_appium_capabilities (cs "\"app\"app\"") = cs "\"appium:app\"app\"" ∧
    hasSub (update_appium_capabilities (cs "\"app\"app\"")) (cs "\"app\"") = true := by
  constructor
  · decide
  · decide

/-- C6 (amended): (i) for a scope-`all` capability the rename rewrites
occurrences left to right non-overlapping, so when the occurrences of the
quoted key are disjoint every one is prefixed — e.g. both occurrences of
`"app"` in the document below; (ii) for a capability entry whose scope
list is the single entry `android_all`, the rename occurs exactly when the
quoted key is present and the lower-cased document contains `android`. -/
theorem claim_C6 :
    (update_appium_capabilities (cs "\"app\": \"a\", \"app\": \"b\"") =
        cs "\"appium:app\": \"a\", \"appium:app\": \"b\"" ∧
      hasSub (update_appium_capabilities (cs "\"app\": \"a\", \"app\": \"b\""))
        (cs "\"app\"") = false) ∧
    ∀ (c : Str) (cap : String),
      processCap c cap ["android_all"] =
        if hasSub c (cs ("\"" ++ cap ++ "\"")) && hasSub (lowerStr c) (cs "android")
        then update_single_capability c cap
        else c := by
  refine ⟨⟨?_, ?_⟩, processCap_single_android⟩
  · decide
  · decide

/-- C7 (counterexample): the two colon-spacing variants are checked with
`if`/`elif`, so when both variants of the same pair are present only the
first is deleted and the `" : "` variant survives the whole run. -/
theorem claim_C7_counterexample :
    hasSub (update_appium_capabilities
        (cs "\"isStrict\": \"true\", \"isStrict\" : \"true\","))
      (cs "\"isStrict\" : \"true\",") = true := by
  decide

/-- C7 (amended): for each configured pair the removal phase deletes the
occurrences of the `": "` variant when that variant is present, and only
otherwise those of the `" : "` variant; an input with both spacing
variants keeps the second.  The spec's concrete scenario holds: the
`isStrict` pair is deleted entirely and `"app"` is renamed. -/
theorem claim_C7 :
    update_appium_capabilities (cs "\"isStrict\": \"true\", \"app\": \"myapp.apk\"") =
      cs " \"appium:app\": \"myapp.apk\"" := by
  decide

/-- C8: the walk branch of `main` calls `convert_pom(path)` with the bare
basename rather than `os.path.join(root, path)`, so a `pom.xml` found in
a subdirectory is opened relative to the working directory: with no such
file the `open` raises an uncaught `FileNotFoundError` (modelled as
`none`) and the run aborts, whatever the POM transformation is — the
found file `proj/sub/pom.xml` is never rewritten. -/
theorem claim_C8 :
    ∀ pomT : Str → Str, mainRun pomT fsPomWalk ["proj"] = none := by
  intro pomT
  rfl

/-- C9: a direct file argument reaches the POM pipeline only when the
whole argument string equals `pom.xml` (`filepath == 'pom.xml'`), not
when its basename does: the existing file `subdir/pom.xml` is rejected
with the invalid-input diagnostic (contradicting the usage text's
"relative or absolute path to pom.xml file"), and processing continues
with the remaining arguments. -/
theorem claim_C9 :
    ∀ pomT : Str → Str,
      mainRun pomT fsPomArg ["subdir/pom.xml", "B.java"] =
        some (["subdir/pom.xml is not a valid Java file, pom.xml, or directory.",
               "Converted B.java"], fsPomArg) := by
  intro pomT
  rfl

/-- C10: the `remove_sdk_helper_create` loop terminates on every input:
with fuel equal to the number of `create(` occurrences the fueled loop
always returns (each iteration strictly decreases that count), the
fallback in `remove_sdk_helper_create` is dead code, and when the loop
ran at all the final text no longer matches the loop's search pattern. -/
theorem claim_C10 (s : Str) :
    ∃ t, remove_sdk_fuel (countCreate s) s = some t ∧
      remove_sdk_helper_create s = t ∧
      (sdkSearch true s = none → t = s) ∧
      (sdkSearch true s ≠ none → sdkSearch false t = none) := by
  rcases hs : sdkSearch true s with _ | ⟨⟨p, g, q⟩⟩
  · refine ⟨s, ?_, ?_, fun _ => rfl, fun h => absurd rfl h⟩
    · simp [remove_sdk_fuel, hs]
    · simp [remove_sdk_helper_create, remove_sdk_fuel, hs]
  · have hd := sdkStep_decrease hs
    have h1 : 1 ≤ countCreate s := by
      obtain ⟨hseq, hg⟩ := sdkSearch_decomp hs
      have h2 := countSub_append_ge (cs "create(") (p ++ g) q
      have h3 := countSub_append_ge (cs "create(") p g
      unfold countCreate at *
      rw [hseq]
      omega
    obtain ⟨t, ht1, ht2⟩ := sdkLoop_some (countCreate s) (sdkStep p g q) (by omega)
    refine ⟨t, ?_, ?_, ?_, fun _ => ht2⟩
    · simp [remove_sdk_fuel, hs, ht1]
    · simp [remove_sdk_helper_create, remove_sdk_fuel, hs, ht1]
    · exact fun h0 => Option.noConfusion h0

end AutoSdk
